import Mathlib

/-
Formal model of the credit-card approval training/serving pipeline
(`app/` serving service and `cap_model/` training code).

Shallow embedding, one Lean definition per Python operation:
* `get_dummies`     — pandas one-hot encoding with `drop_first=True`
                      (`FeatureEncoder.one_hot_encode`, `PreprocessingService.preprocess`);
* `align_features`  — reference-column alignment with in-place zero-fill
                      (`PreprocessingService.align_features`, `FeatureEncoder.align_features`);
* `resolve_version` / `load_model` — MLflow stage resolution and the
                      `ModelService._load_model` / `reload_model` state update;
* `get_best_model`  — best-candidate selection (`ModelTrainer.get_best_model`);
* artifact persistence (`FeatureEngineer.full_pipeline` step 6,
                      `MLflowArtifactManager.log_preprocessing_artifacts`);
* `full_pipeline_flow` — data flow of `FeatureEngineer.full_pipeline`;
* `router_predict`  — the `/api/v1/predict` handler.

Matrices are column-oriented: a DataFrame is a list of (name, values)
columns plus a row count.  Numeric cell values are modelled as integers
(the operations under study only copy, zero-fill, or compare them).
-/

/- ### Code-point lexicographic string order

Python compares strings by Unicode code points; pandas sorts the
categories of an object column with this order before `drop_first`
removes the first one.  `charListLe` is that order on the code-point
lists; it is the `≤` used everywhere below. -/

def charListLe : List Char → List Char → Bool
  | [], _ => true
  | _ :: _, [] => false
  | a :: as, b :: bs =>
    if a.toNat < b.toNat then true
    else if b.toNat < a.toNat then false
    else charListLe as bs

def strLe (a b : String) : Bool :=
  charListLe a.data b.data

theorem charListLe_refl (as : List Char) : charListLe as as = true := by
  induction as with
  | nil => rfl
  | cons a as ih => simp [charListLe, ih]

theorem charListLe_total (as : List Char) :
    ∀ bs, charListLe as bs = true ∨ charListLe bs as = true := by
  induction as with
  | nil => intro bs; left; rfl
  | cons a as ih =>
    intro bs
    cases bs with
    | nil => right; rfl
    | cons b bs =>
      rcases Nat.lt_trichotomy a.toNat b.toNat with h | h | h
      · left; simp [charListLe, h]
      · rcases ih bs with h2 | h2
        · left; simp [charListLe, h, h2]
        · right; simp [charListLe, h, h2]
      · right; simp [charListLe, h]

theorem charListLe_trans (as : List Char) :
    ∀ bs cs, charListLe as bs = true → charListLe bs cs = true →
      charListLe as cs = true := by
  induction as with
  | nil => intro bs cs _ _; rfl
  | cons a as ih =>
    intro bs cs h1 h2
    cases bs with
    | nil => simp [charListLe] at h1
    | cons b bs =>
      cases cs with
      | nil => simp [charListLe] at h2
      | cons c cs =>
        simp only [charListLe] at h1 h2 ⊢
        split_ifs at h1 h2 ⊢ <;>
          first
            | rfl
            | omega
            | exact ih bs cs h1 h2

theorem strLe_refl (a : String) : strLe a a = true :=
  charListLe_refl a.data

theorem strLe_total (a b : String) : strLe a b = true ∨ strLe b a = true :=
  charListLe_total a.data b.data

theorem strLe_trans {a b c : String} (h1 : strLe a b = true)
    (h2 : strLe b c = true) : strLe a c = true :=
  charListLe_trans a.data b.data c.data h1 h2

/- ### Insertion sort by `strLe` (the category ordering pandas uses) -/

def insertSorted (x : String) : List String → List String
  | [] => [x]
  | y :: ys => if strLe x y then x :: y :: ys else y :: insertSorted x ys

def sortStrings : List String → List String
  | [] => []
  | x :: xs => insertSorted x (sortStrings xs)

theorem insertSorted_perm (x : String) (l : List String) :
    (insertSorted x l).Perm (x :: l) := by
  induction l with
  | nil => exact List.Perm.refl _
  | cons y ys ih =>
    simp only [insertSorted]
    split
    · exact List.Perm.refl _
    · exact (ih.cons y).trans (List.Perm.swap x y ys)

theorem sortStrings_perm (l : List String) : (sortStrings l).Perm l := by
  induction l with
  | nil => exact List.Perm.refl _
  | cons x xs ih =>
    exact (insertSorted_perm x (sortStrings xs)).trans (ih.cons x)

theorem mem_sortStrings {x : String} {l : List String} :
    x ∈ sortStrings l ↔ x ∈ l :=
  (sortStrings_perm l).mem_iff

theorem sortStrings_nodup {l : List String} (h : l.Nodup) :
    (sortStrings l).Nodup :=
  (sortStrings_perm l).nodup_iff.mpr h

def StrSorted (l : List String) : Prop :=
  l.Pairwise (fun a b => strLe a b = true)

theorem insertSorted_sorted (x : String) {l : List String}
    (h : StrSorted l) : StrSorted (insertSorted x l) := by
  induction l with
  | nil => simp [insertSorted, StrSorted]
  | cons y ys ih =>
    simp only [insertSorted]
    split
    · rename_i hxy
      refine List.Pairwise.cons ?_ h
      intro z hz
      rcases List.mem_cons.mp hz with rfl | hz
      · exact hxy
      · exact strLe_trans hxy (List.rel_of_pairwise_cons h hz)
    · rename_i hxy
      have hyx : strLe y x = true := by
        rcases strLe_total x y with h1 | h1
        · exact absurd h1 hxy
        · exact h1
      refine List.Pairwise.cons ?_ (ih h.of_cons)
      intro z hz
      have hz2 : z ∈ x :: ys := (insertSorted_perm x ys).mem_iff.mp hz
      rcases List.mem_cons.mp hz2 with rfl | hz2
      · exact hyx
      · exact List.rel_of_pairwise_cons h hz2

theorem sortStrings_sorted (l : List String) : StrSorted (sortStrings l) := by
  induction l with
  | nil => simp [sortStrings, StrSorted]
  | cons x xs ih => exact insertSorted_sorted x ih

theorem strSorted_head_min {l : List String} (h : StrSorted l) :
    ∀ x ∈ l, strLe l.headI x = true := by
  cases l with
  | nil => intro x hx; simp at hx
  | cons a t =>
    intro x hx
    rcases List.mem_cons.mp hx with rfl | hx
    · exact strLe_refl x
    · exact List.rel_of_pairwise_cons h hx

/- ### Column-oriented DataFrame model

`DF` models an encoded (all-numeric) pandas DataFrame: an ordered list
of named columns plus the row count carried by the index.  `RawDF`
models a raw request/training frame whose columns are either numeric or
categorical (string-valued). -/

structure DF where
  cols : List (String × List Int)
  nrows : Nat
deriving DecidableEq, Repr

inductive ColData where
  | num (vals : List Int)
  | str (vals : List String)
deriving DecidableEq, Repr

structure RawDF where
  cols : List (String × ColData)
  nrows : Nat
deriving DecidableEq, Repr

/-- The sorted unique category values of an object column: pandas
converts the column to a `Categorical` whose categories are the unique
values in code-point sorted order. -/
def sorted_uniques (vals : List String) : List String :=
  sortStrings vals.dedup

/-- The indicator (0/1) column a category value generates. -/
def indicator (vals : List String) (v : String) : List Int :=
  vals.map (fun x => if x = v then 1 else 0)

/-- The dummy columns `pd.get_dummies(..., drop_first=True)` produces
for one object column `name`: one indicator column `name_v` per sorted
unique value `v` except the first, which is dropped. -/
def dummy_block (name : String) (vals : List String) : List (String × List Int) :=
  ((sorted_uniques vals).drop 1).map
    (fun v => (name ++ "_" ++ v, indicator vals v))

/-- `pd.get_dummies(X, drop_first=True)` as used by
`FeatureEncoder.one_hot_encode` and `PreprocessingService.preprocess`:
numeric columns pass through first (in frame order), then the dummy
blocks of the object columns follow in frame order. -/
def get_dummies (X : RawDF) : DF where
  cols :=
    (X.cols.filterMap (fun c =>
      match c.2 with
      | ColData.num vs => some (c.1, vs)
      | ColData.str _ => none))
    ++ (X.cols.flatMap (fun c =>
      match c.2 with
      | ColData.num _ => []
      | ColData.str vs => dummy_block c.1 vs))
  nrows := X.nrows

/- ### Feature alignment

`PreprocessingService.align_features` / `FeatureEncoder.align_features`:

    for col in reference_columns:
        if col not in X.columns:
            X[col] = 0
    return X[reference_columns]

The `for` loop mutates the caller's frame in place, appending a zero
column for every reference name not yet present; the final selection
builds a fresh frame.  `align_loop` is the loop; `align_features`
returns the pair (selected frame, caller's frame after the call). -/

def align_loop (cols : List (String × List Int)) (n : Nat)
    (ref : List String) : List (String × List Int) :=
  ref.foldl
    (fun acc c =>
      if acc.any (fun p => p.1 == c) then acc
      else acc ++ [(c, List.replicate n 0)])
    cols

/-- Column selection `X[c]`: the (first) column named `c`. -/
def lookup_col (cols : List (String × List Int)) (c : String) : List Int :=
  match cols.find? (fun p => p.1 == c) with
  | some p => p.2
  | none => []

def align_features (X : DF) (ref : List String) : DF × DF :=
  (⟨ref.map (fun c => (c, lookup_col (align_loop X.cols X.nrows ref) c)),
     X.nrows⟩,
   ⟨align_loop X.cols X.nrows ref, X.nrows⟩)

theorem align_loop_decomp (cols : List (String × List Int)) (n : Nat)
    (ref : List String) :
    ∃ extra, align_loop cols n ref = cols ++ extra ∧
      ∀ p ∈ extra, p.1 ∈ ref ∧ p.1 ∉ cols.map Prod.fst ∧
        p.2 = List.replicate n 0 := by
  induction ref generalizing cols with
  | nil => exact ⟨[], by simp [align_loop], by simp⟩
  | cons c ref ih =>
    simp only [align_loop, List.foldl_cons] at *
    by_cases hc : cols.any (fun p => p.1 == c)
    · rw [if_pos hc]
      obtain ⟨extra, heq, hprop⟩ := ih cols
      exact ⟨extra, heq, fun p hp =>
        ⟨List.mem_cons_of_mem c (hprop p hp).1, (hprop p hp).2.1,
          (hprop p hp).2.2⟩⟩
    · rw [if_neg hc]
      obtain ⟨extra, heq, hprop⟩ := ih (cols ++ [(c, List.replicate n 0)])
      refine ⟨(c, List.replicate n 0) :: extra, by simpa using heq, ?_⟩
      intro p hp
      rcases List.mem_cons.mp hp with rfl | hp
      · refine ⟨List.mem_cons_self c ref, ?_, rfl⟩
        intro hcmem
        obtain ⟨q, hq, hq1⟩ := List.mem_map.mp hcmem
        exact hc (List.any_eq_true.mpr ⟨q, hq, by simp [hq1]⟩)
      · obtain ⟨h1, h2, h3⟩ := hprop p hp
        refine ⟨List.mem_cons_of_mem c h1, ?_, h3⟩
        intro hcmem
        exact h2 (by simp [hcmem])

theorem align_loop_cons (cols : List (String × List Int)) (n : Nat)
    (c : String) (ref : List String) :
    align_loop cols n (c :: ref) =
      align_loop
        (if cols.any (fun p => p.1 == c) then cols
         else cols ++ [(c, List.replicate n 0)]) n ref := by
  simp only [align_loop, List.foldl_cons]

theorem align_loop_mono (cols : List (String × List Int)) (n : Nat)
    (ref : List String) {q : String × List Int} (hq : q ∈ cols) :
    q ∈ align_loop cols n ref := by
  obtain ⟨extra, heq, -⟩ := align_loop_decomp cols n ref
  rw [heq]
  exact List.mem_append_left _ hq

theorem align_loop_covers (n : Nat) (ref : List String) :
    ∀ (cols : List (String × List Int)), ∀ c ∈ ref,
      ∃ p ∈ align_loop cols n ref, p.1 = c := by
  induction ref with
  | nil => intro cols c hc; simp at hc
  | cons c' ref ih =>
    intro cols c hc
    rw [align_loop_cons]
    by_cases hpres : cols.any (fun p => p.1 == c')
    · rw [if_pos hpres]
      rcases List.mem_cons.mp hc with rfl | hc
      · obtain ⟨q, hq, hq1⟩ := List.any_eq_true.mp hpres
        exact ⟨q, align_loop_mono _ _ _ hq, by simpa using hq1⟩
      · exact ih cols c hc
    · rw [if_neg hpres]
      rcases List.mem_cons.mp hc with rfl | hc
      · exact ⟨(c, List.replicate n 0),
          align_loop_mono _ _ _ (List.mem_append_right _ (by simp)), rfl⟩
      · exact ih _ c hc

theorem nodup_keys_eq {l : List (String × List Int)}
    (h : (l.map Prod.fst).Nodup) {p q : String × List Int}
    (hp : p ∈ l) (hq : q ∈ l) (hfst : p.1 = q.1) : p = q := by
  induction l with
  | nil => simp at hp
  | cons a t ih =>
    rw [List.map_cons, List.nodup_cons] at h
    rcases List.mem_cons.mp hp with hpa | hp2
    · rcases List.mem_cons.mp hq with hqa | hq2
      · rw [hpa, hqa]
      · exfalso
        apply h.1
        have h1 : q.1 ∈ t.map Prod.fst := List.mem_map_of_mem Prod.fst hq2
        rw [← hfst, hpa] at h1
        exact h1
    · rcases List.mem_cons.mp hq with hqa | hq2
      · exfalso
        apply h.1
        have h1 : p.1 ∈ t.map Prod.fst := List.mem_map_of_mem Prod.fst hp2
        rw [hfst, hqa] at h1
        exact h1
      · exact ih h.2 hp2 hq2

theorem lookup_col_present {X : DF} (ref : List String)
    (h : (X.cols.map Prod.fst).Nodup) {c : String} {vs : List Int}
    (hmem : (c, vs) ∈ X.cols) :
    lookup_col (align_loop X.cols X.nrows ref) c = vs := by
  obtain ⟨extra, heq, hprop⟩ := align_loop_decomp X.cols X.nrows ref
  unfold lookup_col
  cases hfind : (align_loop X.cols X.nrows ref).find? (fun p => p.1 == c) with
  | none =>
    have hmem2 : (c, vs) ∈ align_loop X.cols X.nrows ref :=
      align_loop_mono _ _ _ hmem
    have := List.find?_eq_none.mp hfind (c, vs) hmem2
    simp at this
  | some q =>
    have hq1 : q.1 = c := by simpa using List.find?_some hfind
    have hqmem : q ∈ X.cols ++ extra := by
      rw [← heq]; exact List.mem_of_find?_eq_some hfind
    rcases List.mem_append.mp hqmem with hq | hq
    · have : q = (c, vs) := nodup_keys_eq h hq hmem (by simp [hq1])
      rw [this]
    · exfalso
      apply (hprop q hq).2.1
      rw [hq1]
      exact List.mem_map_of_mem Prod.fst hmem

theorem lookup_col_missing {X : DF} {ref : List String} {c : String}
    (hc : c ∈ ref) (hmiss : c ∉ X.cols.map Prod.fst) :
    lookup_col (align_loop X.cols X.nrows ref) c =
      List.replicate X.nrows 0 := by
  obtain ⟨extra, heq, hprop⟩ := align_loop_decomp X.cols X.nrows ref
  unfold lookup_col
  cases hfind : (align_loop X.cols X.nrows ref).find? (fun p => p.1 == c) with
  | none =>
    obtain ⟨p, hp, hp1⟩ := align_loop_covers X.nrows ref X.cols c hc
    have := List.find?_eq_none.mp hfind p hp
    simp [hp1] at this
  | some q =>
    have hq1 : q.1 = c := by simpa using List.find?_some hfind
    have hqmem : q ∈ X.cols ++ extra := by
      rw [← heq]; exact List.mem_of_find?_eq_some hfind
    rcases List.mem_append.mp hqmem with hq | hq
    · exact absurd (by rw [← hq1]; exact List.mem_map_of_mem Prod.fst hq) hmiss
    · exact (hprop q hq).2.2

/-- C1: for every encoded matrix (with distinct column names) and every
reference column list, the frame `align_features` returns has exactly
the reference columns in reference order; reference columns present in
the input are copied through, absent ones are zero-filled over all rows,
and input columns outside the reference do not appear. -/
theorem align_features_spec (X : DF) (ref : List String)
    (hnodup : (X.cols.map Prod.fst).Nodup) :
    ((align_features X ref).1.cols.map Prod.fst = ref)
    ∧ ((align_features X ref).1.cols.length = ref.length)
    ∧ (∀ c vs, (c, vs) ∈ X.cols → c ∈ ref →
        (c, vs) ∈ (align_features X ref).1.cols)
    ∧ (∀ c, c ∈ ref → c ∉ X.cols.map Prod.fst →
        (c, List.replicate X.nrows 0) ∈ (align_features X ref).1.cols)
    ∧ (∀ c, c ∉ ref → c ∉ (align_features X ref).1.cols.map Prod.fst) := by
  have hnames : (align_features X ref).1.cols.map Prod.fst = ref := by
    simp only [align_features]
    rw [List.map_map]
    simp [Function.comp_def]
  refine ⟨hnames, ?_, ?_, ?_, ?_⟩
  · simp [align_features]
  · intro c vs hmem href
    simp only [align_features]
    exact List.mem_map.mpr ⟨c, href,
      by rw [lookup_col_present ref hnodup hmem]⟩
  · intro c href hmiss
    simp only [align_features]
    exact List.mem_map.mpr ⟨c, href, by rw [lookup_col_missing href hmiss]⟩
  · intro c hcref
    rw [hnames]
    exact hcref

/-- Witness for C1 at a concrete frame and reference list. -/
theorem align_features_spec_witness :
    (((⟨[("AMT_INCOME_TOTAL", [7, 8]), ("ZZZ", [3, 4])], 2⟩ : DF).cols.map
        Prod.fst).Nodup)
    ∧ (((align_features ⟨[("AMT_INCOME_TOTAL", [7, 8]), ("ZZZ", [3, 4])], 2⟩
          ["CODE_GENDER_M", "AMT_INCOME_TOTAL"]).1.cols.map Prod.fst =
        ["CODE_GENDER_M", "AMT_INCOME_TOTAL"])
      ∧ ((align_features ⟨[("AMT_INCOME_TOTAL", [7, 8]), ("ZZZ", [3, 4])], 2⟩
          ["CODE_GENDER_M", "AMT_INCOME_TOTAL"]).1.cols.length =
            (["CODE_GENDER_M", "AMT_INCOME_TOTAL"] : List String).length)
      ∧ (∀ c vs,
          (c, vs) ∈ (⟨[("AMT_INCOME_TOTAL", [7, 8]), ("ZZZ", [3, 4])], 2⟩
            : DF).cols →
          c ∈ ["CODE_GENDER_M", "AMT_INCOME_TOTAL"] →
          (c, vs) ∈ (align_features
            ⟨[("AMT_INCOME_TOTAL", [7, 8]), ("ZZZ", [3, 4])], 2⟩
            ["CODE_GENDER_M", "AMT_INCOME_TOTAL"]).1.cols)
      ∧ (∀ c, c ∈ ["CODE_GENDER_M", "AMT_INCOME_TOTAL"] →
          c ∉ ((⟨[("AMT_INCOME_TOTAL", [7, 8]), ("ZZZ", [3, 4])], 2⟩
            : DF).cols.map Prod.fst) →
          (c, List.replicate 2 0) ∈ (align_features
            ⟨[("AMT_INCOME_TOTAL", [7, 8]), ("ZZZ", [3, 4])], 2⟩
            ["CODE_GENDER_M", "AMT_INCOME_TOTAL"]).1.cols)
      ∧ (∀ c, c ∉ ["CODE_GENDER_M", "AMT_INCOME_TOTAL"] →
          c ∉ ((align_features
            ⟨[("AMT_INCOME_TOTAL", [7, 8]), ("ZZZ", [3, 4])], 2⟩
            ["CODE_GENDER_M", "AMT_INCOME_TOTAL"]).1.cols.map Prod.fst))) :=
  ⟨by decide,
    align_features_spec ⟨[("AMT_INCOME_TOTAL", [7, 8]), ("ZZZ", [3, 4])], 2⟩
      ["CODE_GENDER_M", "AMT_INCOME_TOTAL"] (by decide)⟩

/-- C8 counterexample: `align_features` is not free of effects on its
argument.  The loop `X[col] = 0` adds every missing reference column to
the caller's frame in place: after aligning a one-column frame against
`["a", "b"]`, the caller's frame has gained a column `"b"`, so the
input is not unchanged after the call. -/
theorem align_features_mutates_input :
    ((align_features ⟨[("a", [5])], 1⟩ ["a", "b"]).2 ≠
      (⟨[("a", [5])], 1⟩ : DF))
    ∧ ("b" ∈ (align_features ⟨[("a", [5])], 1⟩ ["a", "b"]).2.cols.map
        Prod.fst) := by
  decide

/-- C8 amended: `align_features` is total (it always returns a frame
with exactly one column per reference name, and never fails), it never
modifies or removes the values of the caller's existing columns (they
survive as an unchanged prefix), but it does append to the caller's
frame a zero-filled column for every reference name that was absent. -/
theorem align_features_total_appends_only (X : DF) (ref : List String) :
    ((align_features X ref).1.cols.length = ref.length)
    ∧ ((align_features X ref).2.nrows = X.nrows)
    ∧ (∃ extra, (align_features X ref).2.cols = X.cols ++ extra ∧
        ∀ p ∈ extra, p.1 ∈ ref ∧ p.1 ∉ X.cols.map Prod.fst ∧
          p.2 = List.replicate X.nrows 0) := by
  refine ⟨by simp [align_features], rfl, ?_⟩
  simpa [align_features] using align_loop_decomp X.cols X.nrows ref

/-- Witness for the amended C8 statement at a concrete frame. -/
theorem align_features_total_appends_only_witness :
    (((align_features ⟨[("a", [5])], 1⟩ ["a", "b"]).1.cols.length =
        (["a", "b"] : List String).length)
    ∧ ((align_features ⟨[("a", [5])], 1⟩ ["a", "b"]).2.nrows =
        (⟨[("a", [5])], 1⟩ : DF).nrows)
    ∧ (∃ extra,
        (align_features ⟨[("a", [5])], 1⟩ ["a", "b"]).2.cols =
          (⟨[("a", [5])], 1⟩ : DF).cols ++ extra ∧
        ∀ p ∈ extra, p.1 ∈ ["a", "b"] ∧
          p.1 ∉ (⟨[("a", [5])], 1⟩ : DF).cols.map Prod.fst ∧
          p.2 = List.replicate (⟨[("a", [5])], 1⟩ : DF).nrows 0)) :=
  align_features_total_appends_only ⟨[("a", [5])], 1⟩ ["a", "b"]

theorem string_append_right_inj {p v w : String} (h : p ++ v = p ++ w) :
    v = w := by
  have hd : (p ++ v).data = (p ++ w).data := by rw [h]
  rw [String.data_append, String.data_append] at hd
  have hvw := List.append_cancel_left hd
  cases v
  cases w
  simp only at hvw
  rw [hvw]

theorem mem_sorted_uniques {v : String} {vals : List String} :
    v ∈ sorted_uniques vals ↔ v ∈ vals := by
  rw [sorted_uniques, mem_sortStrings, List.mem_dedup]

theorem sorted_uniques_ne_nil {vals : List String} (h : vals ≠ []) :
    sorted_uniques vals ≠ [] := by
  obtain ⟨x, hx⟩ := List.exists_mem_of_ne_nil vals h
  intro hnil
  have hx2 : x ∈ sorted_uniques vals := mem_sorted_uniques.mpr hx
  rw [hnil] at hx2
  exact List.not_mem_nil x hx2

theorem sorted_uniques_nodup (vals : List String) :
    (sorted_uniques vals).Nodup :=
  sortStrings_nodup (List.nodup_dedup vals)

theorem sorted_uniques_headI_min {vals : List String} :
    ∀ v ∈ vals, strLe (sorted_uniques vals).headI v = true := by
  intro v hv
  exact strSorted_head_min (sortStrings_sorted vals.dedup) v
    (mem_sorted_uniques.mpr hv)

/-- C4: `get_dummies` (with `drop_first=True`) expands each categorical
column into one indicator column per observed category value except the
value that sorts first among the unique values present in the batch,
which is dropped; consequently the encoding is batch-dependent — the
concrete record with `CODE_GENDER = "M"` encodes to a different column
set as a single-row batch than inside a two-row batch that also
contains `"F"`. -/
theorem one_hot_encode_drop_first (X : RawDF) (name : String)
    (vals : List String) (hmem : (name, ColData.str vals) ∈ X.cols)
    (hne : vals ≠ []) :
    ((sorted_uniques vals).headI ∈ vals
      ∧ (∀ v ∈ vals, strLe (sorted_uniques vals).headI v = true))
    ∧ (∀ v ∈ vals, v ≠ (sorted_uniques vals).headI →
        (name ++ "_" ++ v, indicator vals v) ∈ (get_dummies X).cols)
    ∧ ((name ++ "_" ++ (sorted_uniques vals).headI) ∉
        (dummy_block name vals).map Prod.fst)
    ∧ ((get_dummies ⟨[("CODE_GENDER", ColData.str ["M"])], 1⟩).cols.map
          Prod.fst ≠
        (get_dummies ⟨[("CODE_GENDER", ColData.str ["F", "M"])], 2⟩).cols.map
          Prod.fst) := by
  obtain ⟨a, t, hsu⟩ : ∃ a t, sorted_uniques vals = a :: t := by
    cases h : sorted_uniques vals with
    | nil => exact absurd h (sorted_uniques_ne_nil hne)
    | cons a t => exact ⟨a, t, rfl⟩
  have hheadI : (sorted_uniques vals).headI = a := by rw [hsu]; rfl
  refine ⟨⟨?_, sorted_uniques_headI_min⟩, ?_, ?_, ?_⟩
  · rw [hheadI]
    exact mem_sorted_uniques.mp (hsu ▸ List.mem_cons_self a t)
  · intro v hv hvne
    have hvmem : v ∈ sorted_uniques vals := mem_sorted_uniques.mpr hv
    rw [hsu] at hvmem
    rw [hheadI] at hvne
    have hvt : v ∈ t := by
      rcases List.mem_cons.mp hvmem with rfl | h
      · exact absurd rfl hvne
      · exact h
    have hblock : (name ++ "_" ++ v, indicator vals v) ∈
        dummy_block name vals := by
      rw [dummy_block, hsu]
      exact List.mem_map.mpr ⟨v, by simpa using hvt, rfl⟩
    simp only [get_dummies]
    apply List.mem_append_right
    exact List.mem_flatMap.mpr ⟨(name, ColData.str vals), hmem, hblock⟩
  · rw [hheadI]
    intro habs
    obtain ⟨p, hp, hp1⟩ := List.mem_map.mp habs
    rw [dummy_block] at hp
    obtain ⟨w, hw, hweq⟩ := List.mem_map.mp hp
    rw [hsu] at hw
    have hwt : w ∈ t := by simpa using hw
    have heq := congrArg Prod.fst hweq
    rw [hp1] at heq
    have hwa : w = a := string_append_right_inj heq
    have hnodup := sorted_uniques_nodup vals
    rw [hsu, List.nodup_cons] at hnodup
    exact hnodup.1 (hwa ▸ hwt)
  · decide

/-- Witness for C4 at a concrete frame whose single categorical column
observes the values `["b", "a", "b"]` (so `"a"` is dropped). -/
theorem one_hot_encode_drop_first_witness :
    ((("g", ColData.str ["b", "a", "b"]) ∈
        (⟨[("g", ColData.str ["b", "a", "b"])], 3⟩ : RawDF).cols)
      ∧ (["b", "a", "b"] : List String) ≠ [])
    ∧ (((sorted_uniques ["b", "a", "b"]).headI ∈ ["b", "a", "b"]
        ∧ (∀ v ∈ (["b", "a", "b"] : List String),
            strLe (sorted_uniques ["b", "a", "b"]).headI v = true))
      ∧ (∀ v ∈ (["b", "a", "b"] : List String),
          v ≠ (sorted_uniques ["b", "a", "b"]).headI →
          ("g" ++ "_" ++ v, indicator ["b", "a", "b"] v) ∈
            (get_dummies ⟨[("g", ColData.str ["b", "a", "b"])], 3⟩).cols)
      ∧ (("g" ++ "_" ++ (sorted_uniques ["b", "a", "b"]).headI) ∉
          (dummy_block "g" ["b", "a", "b"]).map Prod.fst)
      ∧ ((get_dummies ⟨[("CODE_GENDER", ColData.str ["M"])], 1⟩).cols.map
            Prod.fst ≠
          (get_dummies
            ⟨[("CODE_GENDER", ColData.str ["F", "M"])], 2⟩).cols.map
            Prod.fst)) :=
  ⟨⟨by decide, by decide⟩,
    one_hot_encode_drop_first ⟨[("g", ColData.str ["b", "a", "b"])], 3⟩
      "g" ["b", "a", "b"] (by decide) (by decide)⟩

/- ### First-maximum selection

Both `sorted(stage_versions, key=lambda v: int(v.version),
reverse=True)[0]` (Python's sort is stable, so the head of the
descending sort is the first element attaining the maximal key) and
`max(results, key=...)` (CPython replaces the running maximum only on a
strictly greater key) return the first element of the list attaining
the maximal key.  `foldl_max_by` computes that element. -/

def foldl_max_by {α β : Type} [LinearOrder β] (f : α → β) (x : α)
    (xs : List α) : α :=
  xs.foldl (fun best w => if f best < f w then w else best) x

theorem foldl_max_by_cons {α β : Type} [LinearOrder β] (f : α → β)
    (x w : α) (ws : List α) :
    foldl_max_by f x (w :: ws) =
      foldl_max_by f (if f x < f w then w else x) ws := by
  simp only [foldl_max_by, List.foldl_cons]

theorem foldl_max_by_spec {α β : Type} [LinearOrder β] (f : α → β)
    (x : α) (xs : List α) :
    ∃ pre post, x :: xs = pre ++ foldl_max_by f x xs :: post
      ∧ (∀ s ∈ pre, f s < f (foldl_max_by f x xs))
      ∧ (∀ s ∈ x :: xs, f s ≤ f (foldl_max_by f x xs)) := by
  induction xs generalizing x with
  | nil =>
    refine ⟨[], [], rfl, by simp, ?_⟩
    intro s hs
    rcases List.mem_cons.mp hs with rfl | hs
    · exact le_refl _
    · simp at hs
  | cons w ws ih =>
    rw [foldl_max_by_cons]
    by_cases hxw : f x < f w
    · rw [if_pos hxw]
      obtain ⟨pre, post, hdec, hpre, hmax⟩ := ih w
      refine ⟨x :: pre, post, ?_, ?_, ?_⟩
      · rw [List.cons_append, ← hdec]
      · intro s hs
        rcases List.mem_cons.mp hs with rfl | hs
        · exact lt_of_lt_of_le hxw (hmax w (List.mem_cons_self w ws))
        · exact hpre s hs
      · intro s hs
        rcases List.mem_cons.mp hs with rfl | hs
        · exact le_of_lt (lt_of_lt_of_le hxw (hmax w (List.mem_cons_self w ws)))
        · exact hmax s hs
    · rw [if_neg hxw]
      have hwx : f w ≤ f x := le_of_not_lt hxw
      obtain ⟨pre, post, hdec, hpre, hmax⟩ := ih x
      cases pre with
      | nil =>
        rw [List.nil_append] at hdec
        injection hdec with h1 h2
        refine ⟨[], w :: ws, ?_, by simp, ?_⟩
        · rw [List.nil_append, ← h1]
        · intro s hs
          rcases List.mem_cons.mp hs with rfl | hs
          · exact hmax s (List.mem_cons_self s ws)
          · rcases List.mem_cons.mp hs with rfl | hs
            · exact le_trans hwx (hmax x (List.mem_cons_self x ws))
            · exact hmax s (List.mem_cons_of_mem x hs)
      | cons y p2 =>
        rw [List.cons_append] at hdec
        injection hdec with h1 h2
        have hxm : f x < f (foldl_max_by f x ws) := by
          have hy := hpre y (List.mem_cons_self y p2)
          rw [← h1] at hy
          exact hy
        refine ⟨x :: w :: p2, post, ?_, ?_, ?_⟩
        · simp only [List.cons_append]
          conv_lhs => rw [h2]
        · intro s hs
          rcases List.mem_cons.mp hs with rfl | hs
          · exact hxm
          · rcases List.mem_cons.mp hs with rfl | hs
            · exact lt_of_le_of_lt hwx hxm
            · exact hpre s (List.mem_cons_of_mem y hs)
        · intro s hs
          rcases List.mem_cons.mp hs with rfl | hs
          · exact hmax s (List.mem_cons_self s ws)
          · rcases List.mem_cons.mp hs with rfl | hs
            · exact le_trans hwx (hmax x (List.mem_cons_self x ws))
            · exact hmax s (List.mem_cons_of_mem x hs)

theorem foldl_max_by_mem {α β : Type} [LinearOrder β] (f : α → β)
    (x : α) (xs : List α) : foldl_max_by f x xs ∈ x :: xs := by
  obtain ⟨pre, post, hdec, -, -⟩ := foldl_max_by_spec f x xs
  rw [hdec]
  exact List.mem_append_right pre (List.mem_cons_self _ post)

/- ### MLflow registry resolution and the model service

`ModelService._load_model` (app/services/model_service.py): search the
registry for all versions of the model name, keep those whose
`current_stage` equals the configured stage, fail if none remain, else
take the stage version with the numerically largest `int(v.version)`,
record its version and run id on the service, then fetch the model by
URI.  The classifier object is abstracted as a numeric handle and
`mlflow.pyfunc.load_model` as a `fetch` function (`none` = the fetch
raises). -/

structure VersionRef where
  version : Nat
  run_id : String
  current_stage : String
deriving DecidableEq, Repr

/-- `[v for v in model_versions if v.current_stage == MODEL_STAGE]`. -/
def stage_filter (versions : List VersionRef) (stage : String) :
    List VersionRef :=
  versions.filter (fun v => v.current_stage == stage)

/-- `sorted(stage_versions, key=lambda v: int(v.version), reverse=True)[0]`,
`none` when `stage_versions` is empty (the code raises just before). -/
def latest_version : List VersionRef → Option VersionRef
  | [] => none
  | v :: vs => some (foldl_max_by (fun r => r.version) v vs)

/-- The stage-resolution part of `ModelService._load_model`. -/
def resolve_version (versions : List VersionRef) (stage : String) :
    Option VersionRef :=
  latest_version (stage_filter versions stage)

structure MSState where
  model : Option Nat
  version : Option Nat
  run_id : Option String
deriving DecidableEq, Repr

inductive LoadError where
  | noVersionInStage
  | modelLoadFailed
deriving DecidableEq, Repr

/-- `ModelService._load_model`.  Note the source order: `self.version`
and `self.run_id` are assigned *before* `mlflow.pyfunc.load_model` is
called, so a fetch failure leaves them pointing at the new version
while `self.model` still holds the previous classifier. -/
def load_fetch (fetch : Nat → Option Nat) (s : MSState)
    (latest : VersionRef) : MSState × Option LoadError :=
  match fetch latest.version with
  | none =>
    ({ s with version := some latest.version,
              run_id := some latest.run_id },
     some LoadError.modelLoadFailed)
  | some m =>
    (⟨some m, some latest.version, some latest.run_id⟩, none)

def load_model (versions : List VersionRef) (stage : String)
    (fetch : Nat → Option Nat) (s : MSState) : MSState × Option LoadError :=
  match resolve_version versions stage with
  | none => (s, some LoadError.noVersionInStage)
  | some latest => load_fetch fetch s latest

/-- `ModelService.reload_model` just delegates to `_load_model`. -/
def reload_model (versions : List VersionRef) (stage : String)
    (fetch : Nat → Option Nat) (s : MSState) : MSState × Option LoadError :=
  load_model versions stage fetch s

structure ModelInfo where
  name : String
  stage : String
  version : Option Nat
  run_id : Option String
  loaded : Bool
deriving DecidableEq, Repr

/-- `ModelService.get_model_info`. -/
def get_model_info (name stage : String) (s : MSState) : ModelInfo :=
  ⟨name, stage, s.version, s.run_id, s.model.isSome⟩

/-- `ModelService.predict`: fails when no model is loaded, else applies
the loaded classifier (abstract handle interpreted by `clf`). -/
def ms_predict (clf : Nat → DF → Int) (s : MSState) (features : DF) :
    Option Int :=
  match s.model with
  | none => none
  | some m => some (clf m features)

/-- C3: stage resolution keeps exactly the versions whose current stage
equals the requested stage and picks one with the numerically highest
version identifier; it fails (`none`, which `_load_model` turns into
the no-version-in-stage error) if and only if no version is in the
requested stage. -/
theorem resolve_version_spec (versions : List VersionRef) (stage : String) :
    (resolve_version versions stage = none ↔
      ∀ v ∈ versions, v.current_stage ≠ stage)
    ∧ (∀ v, resolve_version versions stage = some v →
        v ∈ versions ∧ v.current_stage = stage ∧
        ∀ w ∈ versions, w.current_stage = stage → w.version ≤ v.version) := by
  constructor
  · constructor
    · intro hnone v hv hstage
      have hmem : v ∈ stage_filter versions stage :=
        List.mem_filter.mpr ⟨hv, by simp [hstage]⟩
      cases hfl : stage_filter versions stage with
      | nil => rw [hfl] at hmem; exact List.not_mem_nil v hmem
      | cons a t =>
        rw [resolve_version, hfl] at hnone
        simp [latest_version] at hnone
    · intro hall
      have hfl : stage_filter versions stage = [] :=
        List.filter_eq_nil_iff.mpr
          (fun v hv => by simpa using hall v hv)
      rw [resolve_version, hfl]
      rfl
  · intro v hres
    cases hfl : stage_filter versions stage with
    | nil =>
      rw [resolve_version, hfl] at hres
      simp [latest_version] at hres
    | cons a t =>
      rw [resolve_version, hfl] at hres
      simp only [latest_version, Option.some.injEq] at hres
      have hvmem : v ∈ stage_filter versions stage := by
        rw [hfl, ← hres]
        exact foldl_max_by_mem (fun r => r.version) a t
      obtain ⟨-, -, -, -, hmax⟩ :=
        foldl_max_by_spec (fun r => r.version) a t
      refine ⟨List.mem_of_mem_filter hvmem,
        by simpa using List.of_mem_filter hvmem, ?_⟩
      intro w hw hwstage
      have hwmem : w ∈ stage_filter versions stage :=
        List.mem_filter.mpr ⟨hw, by simp [hwstage]⟩
      rw [hfl] at hwmem
      have := hmax w hwmem
      rw [hres] at this
      exact this

/-- Witness for C3 at the registry state with versions
3 (Staging), 5 (Production), 7 (Production): resolution in
`"Production"` returns version 7. -/
theorem resolve_version_spec_witness :
    ((resolve_version
        [⟨3, "r3", "Staging"⟩, ⟨5, "r5", "Production"⟩,
          ⟨7, "r7", "Production"⟩] "Production" = none ↔
      ∀ v ∈ [(⟨3, "r3", "Staging"⟩ : VersionRef), ⟨5, "r5", "Production"⟩,
          ⟨7, "r7", "Production"⟩], v.current_stage ≠ "Production")
    ∧ (∀ v, resolve_version
        [⟨3, "r3", "Staging"⟩, ⟨5, "r5", "Production"⟩,
          ⟨7, "r7", "Production"⟩] "Production" = some v →
        v ∈ [(⟨3, "r3", "Staging"⟩ : VersionRef), ⟨5, "r5", "Production"⟩,
          ⟨7, "r7", "Production"⟩] ∧ v.current_stage = "Production" ∧
        ∀ w ∈ [(⟨3, "r3", "Staging"⟩ : VersionRef), ⟨5, "r5", "Production"⟩,
          ⟨7, "r7", "Production"⟩], w.current_stage = "Production" →
          w.version ≤ v.version))
    ∧ resolve_version
        [⟨3, "r3", "Staging"⟩, ⟨5, "r5", "Production"⟩,
          ⟨7, "r7", "Production"⟩] "Production" =
        some ⟨7, "r7", "Production"⟩ :=
  ⟨resolve_version_spec
      [⟨3, "r3", "Staging"⟩, ⟨5, "r5", "Production"⟩,
        ⟨7, "r7", "Production"⟩] "Production",
    by decide⟩

/-- C2 counterexample: a loaded service (classifier handle 7, version 1,
run id "r1") reloads while the registry offers version 2 (run "r2") in
Production but the model fetch fails.  The reload fails, yet the
service is left with the OLD classifier and the NEW version and run id:
`predict` would keep using the prior classifier while `info()` reports
version 2 — a mix of old and new bundle fields, because `_load_model`
assigns `self.version`/`self.run_id` before fetching the model. -/
theorem reload_partial_update_counterexample :
    ((reload_model [⟨2, "r2", "Production"⟩] "Production" (fun _ => none)
        ⟨some 7, some 1, some "r1"⟩).2 = some LoadError.modelLoadFailed)
    ∧ ((reload_model [⟨2, "r2", "Production"⟩] "Production" (fun _ => none)
        ⟨some 7, some 1, some "r1"⟩).1 ≠ ⟨some 7, some 1, some "r1"⟩)
    ∧ ((reload_model [⟨2, "r2", "Production"⟩] "Production" (fun _ => none)
        ⟨some 7, some 1, some "r1"⟩).1.model = some 7)
    ∧ ((get_model_info "card_approval_model" "Production"
        (reload_model [⟨2, "r2", "Production"⟩] "Production" (fun _ => none)
          ⟨some 7, some 1, some "r1"⟩).1).version = some 2)
    ∧ ((get_model_info "card_approval_model" "Production"
        (⟨some 7, some 1, some "r1"⟩ : MSState)).version = some 1) := by
  decide

/-- C2 amended: when reload fails with no-version-in-stage the whole
prior state is preserved; when reload fails because the model fetch
fails, the prior classifier is preserved (so `predict` answers exactly
as before) but `version` and `run_id` are already overwritten with the
newly resolved version; on success the whole bundle is replaced. -/
theorem reload_failure_behavior (versions : List VersionRef)
    (stage : String) (fetch : Nat → Option Nat) (s : MSState)
    (clf : Nat → DF → Int) :
    ((reload_model versions stage fetch s).2 =
        some LoadError.noVersionInStage →
      (reload_model versions stage fetch s).1 = s)
    ∧ ((reload_model versions stage fetch s).2 =
        some LoadError.modelLoadFailed →
      (reload_model versions stage fetch s).1.model = s.model
      ∧ (∀ features, ms_predict clf (reload_model versions stage fetch s).1
          features = ms_predict clf s features)
      ∧ ∃ latest, resolve_version versions stage = some latest ∧
          fetch latest.version = none ∧
          (reload_model versions stage fetch s).1.version =
            some latest.version ∧
          (reload_model versions stage fetch s).1.run_id =
            some latest.run_id)
    ∧ ((reload_model versions stage fetch s).2 = none →
      ∃ latest m, resolve_version versions stage = some latest ∧
        fetch latest.version = some m ∧
        (reload_model versions stage fetch s).1 =
          ⟨some m, some latest.version, some latest.run_id⟩) := by
  cases hres : resolve_version versions stage with
  | none =>
    have he : reload_model versions stage fetch s =
        (s, some LoadError.noVersionInStage) := by
      unfold reload_model load_model
      rw [hres]
    rw [he]
    exact ⟨fun _ => rfl, fun h => by simp at h, fun h => by simp at h⟩
  | some latest =>
    cases hf : fetch latest.version with
    | none =>
      have he : reload_model versions stage fetch s =
          ({ s with version := some latest.version,
                    run_id := some latest.run_id },
           some LoadError.modelLoadFailed) := by
        unfold reload_model load_model
        rw [hres]
        show load_fetch fetch s latest = _
        unfold load_fetch
        rw [hf]
      rw [he]
      exact ⟨fun h => by simp at h,
        fun _ => ⟨rfl, fun features => rfl, latest, rfl, hf, rfl, rfl⟩,
        fun h => by simp at h⟩
    | some m =>
      have he : reload_model versions stage fetch s =
          (⟨some m, some latest.version, some latest.run_id⟩, none) := by
        unfold reload_model load_model
        rw [hres]
        show load_fetch fetch s latest = _
        unfold load_fetch
        rw [hf]
      rw [he]
      exact ⟨fun h => by simp at h, fun h => by simp at h,
        fun _ => ⟨latest, m, rfl, hf, rfl⟩⟩

/-- Witness for the amended C2 statement: concrete reloads covering the
no-version case and the failed-fetch case. -/
theorem reload_failure_behavior_witness :
    (((reload_model [⟨2, "r2", "Production"⟩] "Staging" (fun _ => none)
        ⟨some 7, some 1, some "r1"⟩).2 = some LoadError.noVersionInStage →
      (reload_model [⟨2, "r2", "Production"⟩] "Staging" (fun _ => none)
        ⟨some 7, some 1, some "r1"⟩).1 = ⟨some 7, some 1, some "r1"⟩)
    ∧ ((reload_model [⟨2, "r2", "Production"⟩] "Staging" (fun _ => none)
        ⟨some 7, some 1, some "r1"⟩).2 = some LoadError.modelLoadFailed →
      (reload_model [⟨2, "r2", "Production"⟩] "Staging" (fun _ => none)
        ⟨some 7, some 1, some "r1"⟩).1.model =
          (⟨some 7, some 1, some "r1"⟩ : MSState).model
      ∧ (∀ features, ms_predict (fun m _ => Int.ofNat m)
          (reload_model [⟨2, "r2", "Production"⟩] "Staging" (fun _ => none)
            ⟨some 7, some 1, some "r1"⟩).1 features =
          ms_predict (fun m _ => Int.ofNat m)
            (⟨some 7, some 1, some "r1"⟩ : MSState) features)
      ∧ ∃ latest, resolve_version [⟨2, "r2", "Production"⟩] "Staging" =
            some latest ∧
          (fun _ : Nat => (none : Option Nat)) latest.version = none ∧
          (reload_model [⟨2, "r2", "Production"⟩] "Staging" (fun _ => none)
            ⟨some 7, some 1, some "r1"⟩).1.version = some latest.version ∧
          (reload_model [⟨2, "r2", "Production"⟩] "Staging" (fun _ => none)
            ⟨some 7, some 1, some "r1"⟩).1.run_id = some latest.run_id)
    ∧ ((reload_model [⟨2, "r2", "Production"⟩] "Staging" (fun _ => none)
        ⟨some 7, some 1, some "r1"⟩).2 = none →
      ∃ latest m, resolve_version [⟨2, "r2", "Production"⟩] "Staging" =
          some latest ∧
        (fun _ : Nat => (none : Option Nat)) latest.version = some m ∧
        (reload_model [⟨2, "r2", "Production"⟩] "Staging" (fun _ => none)
          ⟨some 7, some 1, some "r1"⟩).1 =
          ⟨some m, some latest.version, some latest.run_id⟩)) :=
  reload_failure_behavior [⟨2, "r2", "Production"⟩] "Staging"
    (fun _ => none) ⟨some 7, some 1, some "r1"⟩ (fun m _ => Int.ofNat m)

/- ### Trainer best-model selection

`ModelTrainer.get_best_model` (cap_model/src/models/train.py): raises
when no results exist, else `max(self.results, key=lambda x: x[metric])`.
`self.results` is appended to in training iteration order, one entry per
candidate.  A result row is its model name, its metric table
(`result[metric]` lookup) and an abstract handle for the fitted model
object; metric values are modelled as rationals. -/

structure TrainResult where
  model_name : String
  metrics : List (String × Rat)
  model_object : Nat
deriving DecidableEq, Repr

/-- `result[metric]` (the rows under comparison always carry the
selection metric; a missing key is given a default so the lookup stays
total). -/
def metric_val (r : TrainResult) (metric : String) : Rat :=
  match r.metrics.find? (fun p => p.1 == metric) with
  | some p => p.2
  | none => 0

/-- `ModelTrainer.get_best_model`: error on an empty result list, else
Python's `max` with the metric as key — which keeps the first element
attaining the maximal key. -/
def get_best_model (results : List TrainResult) (metric : String) :
    Except String TrainResult :=
  match results with
  | [] => Except.error "No models trained yet. Call train_all_models first."
  | r :: rest =>
    Except.ok (foldl_max_by (fun x => metric_val x metric) r rest)

/-- C5: best-model selection returns a candidate with the maximal value
of the selection metric, and among equally-scored candidates the one
appearing earliest in training iteration order: every candidate placed
before the selected one scores strictly lower.  Selection is a pure
function of the result list, hence deterministic across calls. -/
theorem get_best_model_first_max (results : List TrainResult)
    (metric : String) (r : TrainResult)
    (h : get_best_model results metric = Except.ok r) :
    r ∈ results
    ∧ (∀ s ∈ results, metric_val s metric ≤ metric_val r metric)
    ∧ (∃ pre post, results = pre ++ r :: post ∧
        ∀ s ∈ pre, metric_val s metric < metric_val r metric) := by
  cases results with
  | nil => simp [get_best_model] at h
  | cons x xs =>
    simp only [get_best_model, Except.ok.injEq] at h
    subst h
    obtain ⟨pre, post, hdec, hpre, hmax⟩ :=
      foldl_max_by_spec (fun t => metric_val t metric) x xs
    refine ⟨?_, fun s hs => hmax s hs, pre, post, hdec, hpre⟩
    rw [hdec]
    exact List.mem_append_right pre (List.mem_cons_self _ _)

/-- Witness for C5: two candidates tied on F1-Score; selection returns
the one trained first. -/
theorem get_best_model_first_max_witness :
    (get_best_model
      [⟨"AdaBoost", [("F1-Score", 1)], 1⟩, ⟨"XGBoost", [("F1-Score", 1)], 2⟩]
      "F1-Score" = Except.ok ⟨"AdaBoost", [("F1-Score", 1)], 1⟩)
    ∧ ((⟨"AdaBoost", [("F1-Score", 1)], 1⟩ : TrainResult) ∈
        [(⟨"AdaBoost", [("F1-Score", 1)], 1⟩ : TrainResult),
          ⟨"XGBoost", [("F1-Score", 1)], 2⟩]
      ∧ (∀ s ∈ [(⟨"AdaBoost", [("F1-Score", 1)], 1⟩ : TrainResult),
            ⟨"XGBoost", [("F1-Score", 1)], 2⟩],
          metric_val s "F1-Score" ≤
            metric_val ⟨"AdaBoost", [("F1-Score", 1)], 1⟩ "F1-Score")
      ∧ (∃ pre post,
          [(⟨"AdaBoost", [("F1-Score", 1)], 1⟩ : TrainResult),
            ⟨"XGBoost", [("F1-Score", 1)], 2⟩] =
            pre ++ (⟨"AdaBoost", [("F1-Score", 1)], 1⟩ : TrainResult) :: post ∧
          ∀ s ∈ pre, metric_val s "F1-Score" <
            metric_val ⟨"AdaBoost", [("F1-Score", 1)], 1⟩ "F1-Score")) :=
  ⟨rfl,
    get_best_model_first_max
      [⟨"AdaBoost", [("F1-Score", 1)], 1⟩, ⟨"XGBoost", [("F1-Score", 1)], 2⟩]
      "F1-Score" ⟨"AdaBoost", [("F1-Score", 1)], 1⟩ rfl⟩

/- ### Artifact persistence

Two code paths persist preprocessing artifacts:
* `FeatureEngineer.full_pipeline` step 6 (feature_engineering.py):
  when `save_preprocessors` and `output_dir` are set, it dumps
  `scaler.pkl` if `self.scaler` is set and `pca.pkl` if `self.pca` is
  set; it writes no feature-names file at all.
* `MLflowArtifactManager.log_preprocessing_artifacts`
  (mlflow_artifacts.py): logs `scaler.pkl`, `pca.pkl` and
  `feature_names.json` to the active run, each only when the
  corresponding argument is not `None`. -/

inductive ArtifactFile where
  | scalerFile
  | pcaFile
  | featureNamesFile
deriving DecidableEq, Repr

def full_pipeline_saved (save_preprocessors : Bool) (has_output_dir : Bool)
    (scaler_set : Bool) (pca_set : Bool) : List ArtifactFile :=
  if save_preprocessors && has_output_dir then
    (if scaler_set then [ArtifactFile.scalerFile] else [])
    ++ (if pca_set then [ArtifactFile.pcaFile] else [])
  else []

def log_preprocessing_artifacts (scaler : Option Nat) (pca : Option Nat)
    (feature_names : Option (List String)) : List ArtifactFile :=
  (if scaler.isSome then [ArtifactFile.scalerFile] else [])
  ++ (if pca.isSome then [ArtifactFile.pcaFile] else [])
  ++ (if feature_names.isSome then [ArtifactFile.featureNamesFile] else [])

/-- C7 counterexample: `full_pipeline`'s save step, with preprocessors
present, writes the scaler and PCA files but never the feature-names
file — a nonempty strict subset of the triple; and the MLflow logger
called with `pca=None` (the `--no-pca` configuration) writes only the
scaler and feature-names files. -/
theorem artifact_triple_counterexample :
    (full_pipeline_saved true true true true =
      [ArtifactFile.scalerFile, ArtifactFile.pcaFile])
    ∧ (ArtifactFile.featureNamesFile ∉
        full_pipeline_saved true true true true)
    ∧ (full_pipeline_saved true true true true ≠ [])
    ∧ (log_preprocessing_artifacts (some 1) none (some ["a"]) =
        [ArtifactFile.scalerFile, ArtifactFile.featureNamesFile]) := by
  decide

/-- C7 amended: the three artifacts are written independently, not as
an unconditional triple.  `full_pipeline`'s local save writes the
scaler file iff saving is enabled and a scaler is set, the PCA file iff
saving is enabled and a PCA is set, and never writes the feature-names
file; the MLflow logger writes each of the three files iff the
corresponding argument is present. -/
theorem artifact_persistence_characterization
    (save_preprocessors has_output_dir scaler_set pca_set : Bool)
    (scaler pca : Option Nat) (feature_names : Option (List String)) :
    (ArtifactFile.featureNamesFile ∉
      full_pipeline_saved save_preprocessors has_output_dir scaler_set pca_set)
    ∧ (ArtifactFile.scalerFile ∈
        full_pipeline_saved save_preprocessors has_output_dir scaler_set
          pca_set ↔
        (save_preprocessors = true ∧ has_output_dir = true ∧
          scaler_set = true))
    ∧ (ArtifactFile.pcaFile ∈
        full_pipeline_saved save_preprocessors has_output_dir scaler_set
          pca_set ↔
        (save_preprocessors = true ∧ has_output_dir = true ∧
          pca_set = true))
    ∧ (ArtifactFile.scalerFile ∈
        log_preprocessing_artifacts scaler pca feature_names ↔
        scaler.isSome = true)
    ∧ (ArtifactFile.pcaFile ∈
        log_preprocessing_artifacts scaler pca feature_names ↔
        pca.isSome = true)
    ∧ (ArtifactFile.featureNamesFile ∈
        log_preprocessing_artifacts scaler pca feature_names ↔
        feature_names.isSome = true) := by
  cases save_preprocessors <;> cases has_output_dir <;> cases scaler_set <;>
    cases pca_set <;> cases scaler <;> cases pca <;> cases feature_names <;>
      simp [full_pipeline_saved, log_preprocessing_artifacts]

/-- Witness for the amended C7 statement at concrete flags. -/
theorem artifact_persistence_characterization_witness :
    ((ArtifactFile.featureNamesFile ∉ full_pipeline_saved true true true false)
    ∧ (ArtifactFile.scalerFile ∈ full_pipeline_saved true true true false ↔
        (true = true ∧ true = true ∧ true = true))
    ∧ (ArtifactFile.pcaFile ∈ full_pipeline_saved true true true false ↔
        (true = true ∧ true = true ∧ false = true))
    ∧ (ArtifactFile.scalerFile ∈
        log_preprocessing_artifacts (some 1) none (some ["a"]) ↔
        (some 1 : Option Nat).isSome = true)
    ∧ (ArtifactFile.pcaFile ∈
        log_preprocessing_artifacts (some 1) none (some ["a"]) ↔
        (none : Option Nat).isSome = true)
    ∧ (ArtifactFile.featureNamesFile ∈
        log_preprocessing_artifacts (some 1) none (some ["a"]) ↔
        (some ["a"] : Option (List String)).isSome = true)) :=
  artifact_persistence_characterization true true true false
    (some 1) none (some ["a"])

/- ### Training pipeline data flow (`FeatureEngineer.full_pipeline`)

The pipeline body is: encode, optionally SMOTE+Tomek resample, fit the
scaler on the (possibly resampled) matrix, optionally fit PCA, split.
`PExpr` records symbolically which matrix each stage consumed; `TStep`
records the event order of the stages. -/

inductive PExpr where
  | raw
  | encoded (x : PExpr)
  | resampled (x : PExpr)
  | scaled (x : PExpr)
  | reduced (x : PExpr)
deriving DecidableEq, Repr

inductive TStep where
  | tEncode
  | tResample
  | tScalerFit
  | tScalerTransform
  | tPCAFit
  | tPCATransform
  | tAlign
  | tSplit
deriving DecidableEq, Repr

structure PipelineRun where
  scaler_fit_input : PExpr
  final : PExpr
  steps : List TStep
deriving DecidableEq, Repr

/-- `FeatureEngineer.full_pipeline` steps 1–5:
`X_encoded = encode(X)`; `X_resampled = smote_tomek(X_encoded)` when
`apply_smote` else `X_encoded`; `X_scaled = scale(X_resampled, fit=True)`;
`X_transformed = pca(X_scaled, fit=True)` when `apply_pca_transform`
else `X_scaled`; then the train/test split. -/
def full_pipeline_flow (apply_smote apply_pca_transform : Bool) :
    PipelineRun :=
  let x_encoded := PExpr.encoded PExpr.raw
  let x_resampled :=
    if apply_smote then PExpr.resampled x_encoded else x_encoded
  let x_scaled := PExpr.scaled x_resampled
  let x_transformed :=
    if apply_pca_transform then PExpr.reduced x_scaled else x_scaled
  { scaler_fit_input := x_resampled
    final := x_transformed
    steps := [TStep.tEncode]
      ++ (if apply_smote then [TStep.tResample] else [])
      ++ [TStep.tScalerFit]
      ++ (if apply_pca_transform then [TStep.tPCAFit] else [])
      ++ [TStep.tSplit] }

/-- The serving-time `PreprocessingService.preprocess` step sequence:
one-hot encode, align, scaler transform, PCA transform — and nothing
else. -/
def preprocess_steps : List TStep :=
  [TStep.tEncode, TStep.tAlign, TStep.tScalerTransform,
    TStep.tPCATransform]

/-- C9: with resampling enabled, the resampler is invoked strictly
before the scaler fit, the scaler is fitted on the resampled (not the
merely encoded) matrix, and the serving-time preprocess sequence
contains no resampling step. -/
theorem resample_before_scaler_fit (apply_smote apply_pca_transform : Bool)
    (h : apply_smote = true) :
    ((full_pipeline_flow apply_smote apply_pca_transform).scaler_fit_input =
      PExpr.resampled (PExpr.encoded PExpr.raw))
    ∧ (∃ i j, i < j ∧
        (full_pipeline_flow apply_smote apply_pca_transform).steps.get? i =
          some TStep.tResample ∧
        (full_pipeline_flow apply_smote apply_pca_transform).steps.get? j =
          some TStep.tScalerFit)
    ∧ (TStep.tResample ∉ preprocess_steps) := by
  subst h
  cases apply_pca_transform <;>
    exact ⟨rfl, ⟨1, 2, by decide, rfl, rfl⟩, by decide⟩

/-- Witness for C9 with both pipeline options enabled. -/
theorem resample_before_scaler_fit_witness :
    (true = true)
    ∧ (((full_pipeline_flow true true).scaler_fit_input =
        PExpr.resampled (PExpr.encoded PExpr.raw))
      ∧ (∃ i j, i < j ∧
          (full_pipeline_flow true true).steps.get? i =
            some TStep.tResample ∧
          (full_pipeline_flow true true).steps.get? j =
            some TStep.tScalerFit)
      ∧ (TStep.tResample ∉ preprocess_steps)) :=
  ⟨rfl, resample_before_scaler_fit true true rfl⟩

/- ### The serving path (`/api/v1/predict`)

`predict` in app/routers/predict.py builds a single-row DataFrame from
the validated request body, runs `PreprocessingService.preprocess`
(encode, align against the loaded `feature_names`, `scaler.transform`,
`pca.transform`, rename to `PC1..PCk`), feeds the result to
`ModelService.predict`, and formats the response.  The externally
fitted scaler, PCA and classifier are opaque collaborators and appear
as function parameters. -/

theorem align_features_names (X : DF) (ref : List String) :
    (align_features X ref).1.cols.map Prod.fst = ref := by
  simp only [align_features]
  rw [List.map_map]
  simp [Function.comp_def]

inductive RawValue where
  | int (n : Int)
  | str (s : String)
deriving DecidableEq, Repr

/-- `pd.DataFrame([input_data.model_dump()])`: one row per request. -/
def single_row_df (record : List (String × RawValue)) : RawDF where
  cols := record.map (fun p =>
    (p.1, match p.2 with
      | RawValue.int n => ColData.num [n]
      | RawValue.str s => ColData.str [s]))
  nrows := 1

/-- `pd.DataFrame(df_pca, columns=[f"PC{i+1}" ...], index=df.index)`. -/
def rename_pcs (d : DF) : DF where
  cols := d.cols.enum.map (fun p => ("PC" ++ toString (p.1 + 1), p.2.2))
  nrows := d.nrows

/-- `PreprocessingService.preprocess`: encode → align → scale → PCA,
then re-wrap under `PC` column names. -/
def preprocess_serving (feature_names : List String)
    (scalerT pcaT : DF → DF) (df : RawDF) : DF :=
  let df_encoded := get_dummies df
  let df_aligned := (align_features df_encoded feature_names).1
  let df_scaled := scalerT df_aligned
  let df_pca := pcaT df_scaled
  rename_pcs df_pca

structure PredictionOutput where
  prediction : Int
  probability : Rat
  decision : String
  confidence : Rat
  version : Option Nat
deriving DecidableEq, Repr

/-- The `/api/v1/predict` handler body: preprocess, predict, and build
the response with `probability=float(prediction)`, `confidence=1.0`,
`decision = "APPROVED" if prediction == 1 else "REJECTED"` and the
loaded model version. -/
def router_predict (feature_names : List String) (scalerT pcaT : DF → DF)
    (clf : DF → Int) (s : MSState) (record : List (String × RawValue)) :
    PredictionOutput :=
  let df := single_row_df record
  let df_processed := preprocess_serving feature_names scalerT pcaT df
  let prediction := clf df_processed
  let decision := if prediction = 1 then "APPROVED" else "REJECTED"
  { prediction := prediction
    probability := (prediction : Rat)
    decision := decision
    confidence := 1
    version := s.version }

/-- C6: the serving pipeline applies, in order, one-hot encoding on the
single-row batch, alignment against the currently loaded reference
columns, the scaler transform, the reducer transform, and the
classifier; the frame entering the scaler carries exactly the loaded
reference columns in order; classifier output 1 maps to decision
"APPROVED" and any other output, in particular 0, to "REJECTED". -/
theorem router_predict_pipeline (feature_names : List String)
    (scalerT pcaT : DF → DF) (clf : DF → Int) (s : MSState)
    (record : List (String × RawValue)) :
    ((router_predict feature_names scalerT pcaT clf s record).prediction =
      clf (rename_pcs (pcaT (scalerT ((align_features
        (get_dummies (single_row_df record)) feature_names).1)))))
    ∧ ((single_row_df record).nrows = 1)
    ∧ (((align_features (get_dummies (single_row_df record))
        feature_names).1.cols.map Prod.fst) = feature_names)
    ∧ ((router_predict feature_names scalerT pcaT clf s record).decision =
        if (router_predict feature_names scalerT pcaT clf s
            record).prediction = 1
        then "APPROVED" else "REJECTED")
    ∧ ((router_predict feature_names scalerT pcaT clf s record).version =
        s.version) :=
  ⟨rfl, rfl, align_features_names _ _, rfl, rfl⟩

/-- C10: the response's `probability` equals the prediction cast to a
number and `confidence` is the constant 1; hence for a binary
classifier output the probability is exactly 0 or 1, never a genuine
probability score. -/
theorem router_predict_probability_confidence (feature_names : List String)
    (scalerT pcaT : DF → DF) (clf : DF → Int) (s : MSState)
    (record : List (String × RawValue))
    (h : (router_predict feature_names scalerT pcaT clf s
        record).prediction = 0 ∨
      (router_predict feature_names scalerT pcaT clf s
        record).prediction = 1) :
    ((router_predict feature_names scalerT pcaT clf s record).probability =
      (((router_predict feature_names scalerT pcaT clf s
        record).prediction : Int) : Rat))
    ∧ ((router_predict feature_names scalerT pcaT clf s
        record).confidence = 1)
    ∧ ((router_predict feature_names scalerT pcaT clf s
          record).probability = 0 ∨
        (router_predict feature_names scalerT pcaT clf s
          record).probability = 1) := by
  refine ⟨rfl, rfl, ?_⟩
  have hp : (router_predict feature_names scalerT pcaT clf s
      record).probability = (((router_predict feature_names scalerT pcaT
      clf s record).prediction : Int) : Rat) := rfl
  rcases h with h0 | h1
  · left
    rw [hp, h0]
    norm_num
  · right
    rw [hp, h1]
    norm_num

/-- Witness for C10 with a constant classifier returning label 1. -/
theorem router_predict_probability_confidence_witness :
    ((router_predict [] id id (fun _ => 1) ⟨none, none, none⟩
        []).prediction = 0 ∨
      (router_predict [] id id (fun _ => 1) ⟨none, none, none⟩
        []).prediction = 1)
    ∧ (((router_predict [] id id (fun _ => 1) ⟨none, none, none⟩
          []).probability =
        (((router_predict [] id id (fun _ => 1) ⟨none, none, none⟩
          []).prediction : Int) : Rat))
      ∧ ((router_predict [] id id (fun _ => 1) ⟨none, none, none⟩
          []).confidence = 1)
      ∧ (((router_predict [] id id (fun _ => 1) ⟨none, none, none⟩
            []).probability = 0 ∨
          (router_predict [] id id (fun _ => 1) ⟨none, none, none⟩
            []).probability = 1))) :=
  ⟨Or.inr rfl,
    router_predict_probability_confidence [] id id (fun _ => 1)
      ⟨none, none, none⟩ [] (Or.inr rfl)⟩
